import Mathlib

/-!
Shallow embedding of the GreenValue retrieval core: the cross-encoder
reranker (`CrossEncoderReranker.rerank`), the corrective relevance filter
(`CorrectiveRAG.filter_documents` / `check_relevance`), the FlashRank
stage (`RetrievalEngine._flashrank_rerank`) and the orchestrating
`RetrievalEngine.retrieve`, translated from
`reference_files/rag/ragfolder/reranker.txt` and the retrieval-engine
module.  Scores are modelled as rationals (the source uses Python
ints/floats); the external model calls and the relevance oracle are
parameters, fallible ones returning `Except`.
-/

namespace GreenValue

/-- A retrieved document: text content plus a mutable metadata mapping
(modelled as an association list updated functionally). -/
structure Doc where
  content : String
  metadata : List (String × ℚ)
deriving DecidableEq

/-- `doc.metadata[key] = value`: replace any existing binding of `key`. -/
def setMeta (d : Doc) (key : String) (v : ℚ) : Doc :=
  { d with metadata := (key, v) :: d.metadata.filter (fun p => p.1 ≠ key) }

/-- One step of a stable descending insertion sort on score-carrying pairs:
insert `p` before the first element whose score is `≤ p`'s score.  Combined
with `sortDesc`'s `foldr`, this models Python's stable
`list.sort(key=score, reverse=True)`. -/
def insertDesc {α : Type} (p : α × ℚ) : List (α × ℚ) → List (α × ℚ)
  | [] => [p]
  | q :: qs => if q.2 ≤ p.2 then p :: q :: qs else q :: insertDesc p qs

/-- Stable sort, descending by the `ℚ` component. -/
def sortDesc {α : Type} (l : List (α × ℚ)) : List (α × ℚ) :=
  l.foldr insertDesc []

/-! ### CorrectiveRAG (relevance filter) -/

/-- Value of the Python `int` on a nonempty string of digit characters. -/
def digitsToNat (ds : List Char) : ℕ :=
  ds.foldl (fun n c => 10 * n + (c.toNat - 48)) 0

/-- The digit characters occurring in the first five characters of the
oracle's reply, in order: `filter(str.isdigit, response[:5])`. -/
def digitChars (reply : String) : List Char :=
  (reply.toList.take 5).filter Char.isDigit

/-- `CorrectiveRAG.check_relevance`, abstracted over the oracle's reply.
`.error` models the `llm.invoke` call (or the subsequent parse) raising;
`int('')` on a digit-free prefix raises too, so both hit the
`(True, 70)` default.  Otherwise the digits found in the first five
characters are read as an integer, clamped to at most 100, and
`is_relevant` is `score >= 25`. -/
def check_relevance (reply : Except String String) : Bool × ℚ :=
  match reply with
  | .error _ => (true, 70)
  | .ok r =>
    if digitChars r = [] then (true, 70)
    else
      let score : ℕ := min (digitsToNat (digitChars r)) 100
      (decide (25 ≤ score), (score : ℚ))

/-- `avg_score = sum(s for _, s in scored_docs) / len(scored_docs)`. -/
def avgScore {α : Type} (scored : List (α × ℚ)) : ℚ :=
  (scored.map Prod.snd).sum / (scored.length : ℚ)

/-- `dynamic_threshold = max(min_score, avg_score * 0.6)`. -/
def dynamicThreshold {α : Type} (minScore : ℚ) (scored : List (α × ℚ)) : ℚ :=
  max minScore (avgScore scored * (3 / 5))

/-- `filtered = [doc for doc, score in scored_docs if score >= dynamic_threshold]`,
kept together with the scores the source records into each document's
metadata. -/
def thresholdKept {α : Type} (minScore : ℚ) (scored : List (α × ℚ)) :
    List (α × ℚ) :=
  scored.filter (fun p => dynamicThreshold minScore scored ≤ p.2)

/-- `CorrectiveRAG.filter_documents`, abstracted over the oracle: the input
is the list of documents already paired with the score the oracle assigned
each one (the source writes that score into `doc.metadata` and zips), and
the output keeps the pairs.  Empty input returns empty; otherwise filter by
the dynamic threshold, and if that discards everything fall back to the top
two of a stable descending sort. -/
def filter_documents {α : Type} (minScore : ℚ) (scored : List (α × ℚ)) :
    List (α × ℚ) :=
  if scored.isEmpty then scored
  else if (thresholdKept minScore scored).isEmpty then (sortDesc scored).take 2
  else thresholdKept minScore scored

/-! ### CrossEncoderReranker -/

/-- The cross-encoder stage.  `available` is fixed at construction
(`self.available`); `predict` models `self.model.predict` on the batch of
`(query, content-prefix)` pairs, `.error` modelling the call raising.  The
source wraps `predict` in no `try`, so an error must propagate through
`rerank`. -/
structure CrossEncoderReranker where
  available : Bool
  predict : List (String × String) → Except String (List ℚ)

/-- The `[query, doc.page_content[:500]]` pair list built by `rerank`. -/
def pairsOf (query : String) (docs : List Doc) : List (String × String) :=
  docs.map (fun d => (query, String.take d.content 500))

/-- `CrossEncoderReranker.rerank`: unavailable or empty input short-circuits
to `docs[:top_k]`; otherwise score the batch, stable-sort descending,
truncate to `top_k` and record each kept score under
`"cross_encoder_score"`.  A raising `predict` propagates (there is no
handler in the source). -/
def CrossEncoderReranker.rerank (r : CrossEncoderReranker) (query : String)
    (docs : List Doc) (top_k : ℕ) : Except String (List Doc) :=
  if r.available = false ∨ docs.isEmpty then .ok (docs.take top_k)
  else
    match r.predict (pairsOf query docs) with
    | .error e => .error e
    | .ok scores =>
      .ok (((sortDesc (docs.zip scores)).take top_k).map
        (fun p => setMeta p.1 "cross_encoder_score" p.2))

/-! ### RetrievalEngine -/

/-- The FlashRank collaborator: `call` maps the query and the
`{"id": i, "text": content}` passages to the ranked list of passage ids
(`[r["id"] for r in rerank_results]`); `.error` models the call raising. -/
structure FlashRanker where
  call : String → List (ℕ × String) → Except String (List ℕ)

/-- `RetrievalEngine._flashrank_rerank`: with no ranker, identity; with one,
take the ids of the first `top_k` ranked results and index into `docs`.
Both a raising `call` and an out-of-range id land in the `except` branch,
which returns `docs[:top_k]`. -/
def flashrank_rerank (fr : Option FlashRanker) (query : String)
    (docs : List Doc) (top_k : ℕ) : List Doc :=
  match fr with
  | none => docs
  | some f =>
    match f.call query (docs.enum.map (fun p => (p.1, p.2.content))) with
    | .error _ => docs.take top_k
    | .ok ids =>
      let top := ids.take top_k
      if top.all (fun i => i < docs.length) then
        top.map (fun i => docs.getD i ⟨"", []⟩)
      else docs.take top_k

/-- The retrieval engine: optional FlashRank ranker, the cross-encoder,
`config.top_k_rerank`, and the parent-expansion collaborator
(`store.expand_to_parents`). -/
structure RetrievalEngine where
  flashrank : Option FlashRanker
  cross_encoder : CrossEncoderReranker
  top_k_rerank : ℕ
  expand : List Doc → List Doc

/-- `RetrievalEngine.retrieve`, abstracted over the hybrid-search result
(`searchResult` stands for `retriever.invoke(query)`): empty candidates
return immediately; FlashRank runs under
`use_rerank and self.flashrank and len(docs) > 1` with its default
`top_k = 5`; the cross-encoder runs under
`use_rerank and available and len(docs) > 1` (its error propagating);
finally parent expansion under `use_parent`. -/
def RetrievalEngine.retrieve (e : RetrievalEngine) (query : String)
    (searchResult : List Doc) (use_rerank use_parent : Bool) :
    Except String (List Doc) :=
  if searchResult.isEmpty then .ok []
  else
    let docs1 :=
      if use_rerank ∧ e.flashrank.isSome ∧ 1 < searchResult.length then
        flashrank_rerank e.flashrank query searchResult 5
      else searchResult
    match
      (if use_rerank ∧ e.cross_encoder.available ∧ 1 < docs1.length then
        e.cross_encoder.rerank query docs1 e.top_k_rerank
      else .ok docs1) with
    | .error er => .error er
    | .ok docs2 => .ok (if use_parent then e.expand docs2 else docs2)

/-! ### Spec-side parser (for comparison only) -/

/-- Modelled from the spec: the claimed parsing policy scans for the FIRST
RUN of digit characters within the first 5 characters of the reply (the
source instead concatenates ALL digit characters found there). -/
def firstDigitRun (reply : String) : List Char :=
  ((reply.toList.take 5).dropWhile (fun c => ¬c.isDigit)).takeWhile Char.isDigit

/-- Modelled from the spec: the verdict the claimed policy would produce —
first-run parse, same `(true, 70)` default, clamp at 100, relevance floor
25. -/
def specCheckRelevance (reply : Except String String) : Bool × ℚ :=
  match reply with
  | .error _ => (true, 70)
  | .ok r =>
    if firstDigitRun r = [] then (true, 70)
    else
      let score : ℕ := min (digitsToNat (firstDigitRun r)) 100
      (decide (25 ≤ score), (score : ℚ))

/-! ### Inputs used by the concrete scenarios -/

/-- Raise every oracle score by the same constant (the shift considered by
the monotonicity property). -/
def shiftScores {α : Type} (Δ : ℚ) (scored : List (α × ℚ)) : List (α × ℚ) :=
  scored.map (fun p => (p.1, p.2 + Δ))

/-- Scenario A of the spec: five documents with relevance scores
`[90, 85, 10, 5, 50]` (documents identified by their input position). -/
def scenarioA : List (ℕ × ℚ) := [(0, 90), (1, 85), (2, 10), (3, 5), (4, 50)]

/-- Three documents with scores `[100, 0, 0]`: the threshold 25 keeps
exactly one of them. -/
def oneSurvivor : List (ℕ × ℚ) := [(0, 100), (1, 0), (2, 0)]

/-- Two documents with scores `[20, 0]`: under `minScore = 25` the
threshold discards both and the fallback returns both. -/
def twoWeak : List (ℕ × ℚ) := [(0, 20), (1, 0)]

/-- Six pairwise distinct documents, for exercising the FlashRank error
path with an input longer than its `top_k = 5`. -/
def sixDocs : List Doc :=
  [⟨"a", []⟩, ⟨"b", []⟩, ⟨"c", []⟩, ⟨"d", []⟩, ⟨"e", []⟩, ⟨"f", []⟩]

/-- A FlashRank collaborator whose scoring call always raises. -/
def failingFlash : FlashRanker := ⟨fun _ _ => .error "boom"⟩

/-- A loaded cross-encoder whose batch scoring call always raises. -/
def failingCross : CrossEncoderReranker := ⟨true, fun _ => .error "boom"⟩

/-- A loaded cross-encoder that scores every pair with the same constant 7. -/
def constCross : CrossEncoderReranker :=
  ⟨true, fun ps => .ok (List.replicate ps.length 7)⟩

/-! ### Helper lemmas about the stable sort -/

theorem length_insertDesc {α : Type} (p : α × ℚ) (l : List (α × ℚ)) :
    (insertDesc p l).length = l.length + 1 := by
  induction l with
  | nil => rfl
  | cons q qs ih =>
    by_cases h : q.2 ≤ p.2 <;> simp [insertDesc, h, ih]

theorem length_sortDesc {α : Type} (l : List (α × ℚ)) :
    (sortDesc l).length = l.length := by
  induction l with
  | nil => rfl
  | cons p ps ih => simp [sortDesc, List.foldr] at ih ⊢; rw [length_insertDesc, ih]

theorem mem_insertDesc {α : Type} (b p : α × ℚ) (l : List (α × ℚ)) :
    b ∈ insertDesc p l ↔ b = p ∨ b ∈ l := by
  induction l with
  | nil => simp [insertDesc]
  | cons q qs ih =>
    by_cases h : q.2 ≤ p.2
    · simp [insertDesc, h]
    · simp [insertDesc, h, ih]
      tauto

theorem sorted_insertDesc {α : Type} (p : α × ℚ) (l : List (α × ℚ))
    (h : l.Sorted (fun a b : α × ℚ => b.2 ≤ a.2)) :
    (insertDesc p l).Sorted (fun a b : α × ℚ => b.2 ≤ a.2) := by
  induction l with
  | nil => simp [insertDesc]
  | cons q qs ih =>
    rcases List.sorted_cons.mp h with ⟨hq, hqs⟩
    by_cases hle : q.2 ≤ p.2
    · rw [insertDesc, if_pos hle]
      refine List.sorted_cons.mpr ⟨?_, h⟩
      intro b hb
      rcases List.mem_cons.mp hb with hb | hb
      · exact hb ▸ hle
      · exact le_trans (hq b hb) hle
    · rw [insertDesc, if_neg hle]
      refine List.sorted_cons.mpr ⟨?_, ih hqs⟩
      intro b hb
      rcases (mem_insertDesc b p qs).mp hb with hb | hb
      · exact hb ▸ le_of_lt (lt_of_not_le hle)
      · exact hq b hb

theorem sorted_sortDesc {α : Type} (l : List (α × ℚ)) :
    (sortDesc l).Sorted (fun a b : α × ℚ => b.2 ≤ a.2) := by
  induction l with
  | nil => exact List.sorted_nil
  | cons p ps ih => exact sorted_insertDesc p (sortDesc ps) ih

theorem filter_snd_insertDesc {α : Type} (p : α × ℚ) (l : List (α × ℚ)) (c : ℚ) :
    (insertDesc p l).filter (fun q => q.2 = c) =
      if p.2 = c then p :: l.filter (fun q => q.2 = c)
      else l.filter (fun q => q.2 = c) := by
  induction l with
  | nil => by_cases h : p.2 = c <;> simp [insertDesc, List.filter_cons, h]
  | cons q qs ih =>
    by_cases hle : q.2 ≤ p.2
    · rw [insertDesc, if_pos hle]
      by_cases hp : p.2 = c <;> simp [List.filter_cons, hp]
    · rw [insertDesc, if_neg hle]
      by_cases hp : p.2 = c
      · have hq : ¬q.2 = c := fun hqc => hle (le_of_eq (hqc.trans hp.symm))
        simp [List.filter_cons, hp, hq, ih]
      · by_cases hq : q.2 = c <;> simp [List.filter_cons, hp, hq, ih]

/-- Stability of the descending sort: elements carrying any fixed score
keep their relative input order. -/
theorem filter_snd_sortDesc {α : Type} (l : List (α × ℚ)) (c : ℚ) :
    (sortDesc l).filter (fun q => q.2 = c) = l.filter (fun q => q.2 = c) := by
  induction l with
  | nil => rfl
  | cons p ps ih =>
    show (insertDesc p (sortDesc ps)).filter _ = _
    rw [filter_snd_insertDesc]
    by_cases hp : p.2 = c <;> simp [List.filter_cons, hp, ih]

theorem perm_insertDesc {α : Type} (p : α × ℚ) (l : List (α × ℚ)) :
    (insertDesc p l).Perm (p :: l) := by
  induction l with
  | nil => exact List.Perm.refl _
  | cons q qs ih =>
    by_cases h : q.2 ≤ p.2
    · rw [insertDesc, if_pos h]
    · rw [insertDesc, if_neg h]
      exact (ih.cons q).trans (List.Perm.swap p q qs)

theorem perm_sortDesc {α : Type} (l : List (α × ℚ)) : (sortDesc l).Perm l := by
  induction l with
  | nil => exact List.Perm.refl _
  | cons p ps ih => exact (perm_insertDesc p (sortDesc ps)).trans (ih.cons p)

/-- A list whose scores are all equal is left untouched by the sort. -/
theorem sortDesc_of_const {α : Type} (l : List (α × ℚ)) (c : ℚ)
    (h : ∀ p ∈ l, p.2 = c) : sortDesc l = l := by
  induction l with
  | nil => rfl
  | cons p ps ih =>
    show insertDesc p (sortDesc ps) = p :: ps
    rw [ih (fun q hq => h q (List.mem_cons_of_mem p hq))]
    cases ps with
    | nil => rfl
    | cons q qs =>
      have hq : q.2 ≤ p.2 := by
        rw [h q (by simp), h p (by simp)]
      rw [insertDesc, if_pos hq]

/-! ### Helper lemmas about the shifted-scores run -/

theorem sum_map_snd_add {α : Type} (l : List (α × ℚ)) (Δ : ℚ) :
    (l.map (fun p => p.2 + Δ)).sum = (l.map Prod.snd).sum + l.length * Δ := by
  induction l with
  | nil => simp
  | cons p ps ih => simp [ih]; ring

theorem avgScore_shiftScores {α : Type} (Δ : ℚ) (scored : List (α × ℚ))
    (h : scored ≠ []) : avgScore (shiftScores Δ scored) = avgScore scored + Δ := by
  have hn : (scored.length : ℚ) ≠ 0 :=
    Nat.cast_ne_zero.mpr (List.length_pos.mpr h).ne'
  rw [avgScore, avgScore, shiftScores, List.map_map, List.length_map]
  show ((scored.map (fun p => p.2 + Δ)).sum) / _ = _
  rw [sum_map_snd_add, add_div, mul_div_cancel_left₀ Δ hn]

theorem dynamicThreshold_mono_shift {α : Type} (minScore Δ : ℚ)
    (scored : List (α × ℚ)) (hΔ : 0 ≤ Δ) (h : scored ≠ []) :
    dynamicThreshold minScore scored ≤
      dynamicThreshold minScore (shiftScores Δ scored) := by
  rw [dynamicThreshold, dynamicThreshold, avgScore_shiftScores Δ scored h]
  refine max_le_max le_rfl ?_
  have h35 : (0:ℚ) ≤ 3 / 5 := by norm_num
  exact mul_le_mul_of_nonneg_right (le_add_of_nonneg_right hΔ) h35

theorem dynamicThreshold_shift_le_add {α : Type} (minScore Δ : ℚ)
    (scored : List (α × ℚ)) (hΔ : 0 ≤ Δ) (h : scored ≠ []) :
    dynamicThreshold minScore (shiftScores Δ scored) ≤
      dynamicThreshold minScore scored + Δ := by
  rw [dynamicThreshold, dynamicThreshold, avgScore_shiftScores Δ scored h]
  refine max_le ?_ ?_
  · exact le_add_of_nonneg_right hΔ |>.trans
      (add_le_add_right (le_max_left _ _) Δ)
  · have h1 : (avgScore scored + Δ) * (3 / 5) ≤ avgScore scored * (3 / 5) + Δ := by
      nlinarith
    exact h1.trans (add_le_add_right (le_max_right _ _) Δ)

theorem filter_shift_length {α : Type} (t t' Δ : ℚ) (l : List (α × ℚ))
    (hle : t' ≤ t + Δ) :
    (l.filter (fun p => t ≤ p.2)).length ≤
      ((l.map (fun p => (p.1, p.2 + Δ))).filter (fun p => t' ≤ p.2)).length := by
  induction l with
  | nil => simp
  | cons p ps ih =>
    by_cases hp : t ≤ p.2
    · have hp' : t' ≤ p.2 + Δ := le_trans hle (by linarith)
      simpa [List.filter_cons, hp, hp'] using ih
    · by_cases hp' : t' ≤ p.2 + Δ
      · simp only [List.map_cons, List.filter_cons, hp, hp']
        simp only [decide_eq_true_eq] at *
        simp [hp, hp']
        exact le_trans ih (Nat.le_succ _)
      · simpa [List.filter_cons, hp, hp'] using ih

theorem thresholdKept_shift_length {α : Type} (minScore Δ : ℚ)
    (scored : List (α × ℚ)) (hΔ : 0 ≤ Δ) (h : scored ≠ []) :
    (thresholdKept minScore scored).length ≤
      (thresholdKept minScore (shiftScores Δ scored)).length := by
  rw [thresholdKept, thresholdKept]
  have h2 : dynamicThreshold minScore (shiftScores Δ scored) ≤
      dynamicThreshold minScore scored + Δ :=
    dynamicThreshold_shift_le_add minScore Δ scored hΔ h
  have := filter_shift_length (dynamicThreshold minScore scored)
    (dynamicThreshold minScore (shiftScores Δ scored)) Δ scored h2
  simpa [shiftScores] using this

theorem zip_replicate_self {α : Type} (l : List α) (c : ℚ) :
    l.zip (List.replicate l.length c) = l.map (fun a => (a, c)) := by
  induction l with
  | nil => rfl
  | cons a as ih => simp [List.replicate, ih]

/-! ### Claim theorems -/

/-- C1 (counterexample): with oracle scores `[100, 0, 0]` and
`minScore = 25` the dynamic threshold is `25` and exactly one document
survives it, so `filter_documents` returns 1 document although
`min(2, len(documents)) = 2` — the claimed lower bound fails when the
threshold step keeps exactly one document. -/
theorem c1_counterexample :
    (filter_documents 25 oneSurvivor).length = 1 ∧ min 2 oneSurvivor.length = 2 := by
  constructor
  · norm_num [filter_documents, oneSurvivor, thresholdKept, dynamicThreshold,
      avgScore, List.filter_cons]
  · norm_num [oneSurvivor]

/-- C1 (amended): for every non-empty input and every `minScore`,
`filter_documents` returns at least 1 document; the bound
`min(2, len(documents))` holds exactly when the threshold step discarded
everything and the fallback ran. -/
theorem c1_amended_min_one {α : Type} (minScore : ℚ) (scored : List (α × ℚ))
    (h : scored ≠ []) :
    1 ≤ (filter_documents minScore scored).length
  ∧ (thresholdKept minScore scored = [] →
      (filter_documents minScore scored).length = min 2 scored.length) := by
  have he : scored.isEmpty = false := by simp [List.isEmpty_iff, h]
  by_cases hk : thresholdKept minScore scored = []
  · have hke : (thresholdKept minScore scored).isEmpty = true := by
      simp [List.isEmpty_iff, hk]
    have hlen : (filter_documents minScore scored).length = min 2 scored.length := by
      rw [filter_documents, he, hke]
      simp [List.length_take, length_sortDesc]
    refine ⟨?_, fun _ => hlen⟩
    rw [hlen]
    have h1 : 1 ≤ scored.length := List.length_pos.mpr h
    omega
  · have hke : (thresholdKept minScore scored).isEmpty = false := by
      simp [List.isEmpty_iff, hk]
    have hres : filter_documents minScore scored = thresholdKept minScore scored := by
      rw [filter_documents, he, hke]
      simp
    refine ⟨?_, fun hk0 => absurd hk0 hk⟩
    rw [hres]
    exact List.length_pos.mpr hk

/-- C1 (witness): the amended bound at scores `[100, 0, 0]`, `minScore = 25`. -/
theorem c1_amended_witness : 1 ≤ (filter_documents 25 oneSurvivor).length :=
  (c1_amended_min_one 25 oneSurvivor (by simp [oneSurvivor])).1

/-- C2: the dynamic threshold is `max(minScore, mean(scores) * 0.6)`
(with `0.6 = 3/5`), the threshold step keeps exactly the documents whose
score is at least that threshold, and on Scenario A (scores
`[90, 85, 10, 5, 50]`, `minScore = 25`) the threshold is `144/5 = 28.8`
and exactly the documents scoring 90, 85 and 50 are kept. -/
theorem c2_threshold_formula_and_scenarioA {α : Type} (minScore : ℚ)
    (scored : List (α × ℚ)) :
    (dynamicThreshold minScore scored =
        max minScore ((scored.map Prod.snd).sum / (scored.length : ℚ) * (3 / 5)))
  ∧ (∀ p, p ∈ thresholdKept minScore scored ↔
        p ∈ scored ∧ dynamicThreshold minScore scored ≤ p.2)
  ∧ dynamicThreshold 25 scenarioA = 144 / 5
  ∧ filter_documents 25 scenarioA = [(0, 90), (1, 85), (4, 50)] := by
  refine ⟨rfl, ?_, ?_, ?_⟩
  · intro p
    simp [thresholdKept, List.mem_filter]
  · norm_num [dynamicThreshold, avgScore, scenarioA]
  · norm_num [filter_documents, scenarioA, thresholdKept, dynamicThreshold,
      avgScore, List.filter_cons]

/-- C3 (counterexample): with scores `[20, 0]` and `minScore = 25` the
threshold discards both documents, so the fallback returns 2 documents;
after raising every score by `Δ = 6` the threshold keeps exactly one, so
the final result shrinks from 2 documents to 1 even though `Δ > 0`. -/
theorem c3_counterexample :
    (0 : ℚ) < 6
  ∧ shiftScores 6 twoWeak = [(0, 26), (1, 6)]
  ∧ (filter_documents 25 twoWeak).length = 2
  ∧ (filter_documents 25 (shiftScores 6 twoWeak)).length = 1 := by
  refine ⟨by norm_num, ?_, ?_, ?_⟩
  · norm_num [shiftScores, twoWeak]
  · norm_num [filter_documents, twoWeak, thresholdKept, dynamicThreshold,
      avgScore, List.filter_cons, sortDesc, insertDesc]
  · norm_num [filter_documents, shiftScores, twoWeak, thresholdKept,
      dynamicThreshold, avgScore, List.filter_cons]

/-- C3 (amended): raising every score by a constant `Δ > 0` never lowers
the dynamic threshold, and never lowers the number of documents kept by
the THRESHOLD step; the count of the final result (after the fallback)
can still drop, as the counterexample shows. -/
theorem c3_amended_monotone {α : Type} (minScore Δ : ℚ)
    (scored : List (α × ℚ)) (hΔ : 0 < Δ) (h : scored ≠ []) :
    dynamicThreshold minScore scored ≤
      dynamicThreshold minScore (shiftScores Δ scored)
  ∧ (thresholdKept minScore scored).length ≤
      (thresholdKept minScore (shiftScores Δ scored)).length :=
  ⟨dynamicThreshold_mono_shift minScore Δ scored hΔ.le h,
   thresholdKept_shift_length minScore Δ scored hΔ.le h⟩

/-- C3 (witness): the amended monotonicity at scores `[20, 0]`,
`minScore = 25`, `Δ = 6`. -/
theorem c3_amended_witness :
    dynamicThreshold 25 twoWeak ≤ dynamicThreshold 25 (shiftScores 6 twoWeak) :=
  (c3_amended_monotone 25 6 twoWeak (by norm_num) (by simp [twoWeak])).1

/-- C4 (counterexample): a loaded cross-encoder whose batch scoring call
raises makes `rerank` propagate the error — the caller receives the
exception, not `documents[:topK]`. -/
theorem c4_counterexample :
    failingCross.rerank "q" [⟨"doc", []⟩] 3 = .error "boom"
  ∧ (Except.error "boom" : Except String (List Doc)) ≠
      .ok (([⟨"doc", []⟩] : List Doc).take 3) := by
  exact ⟨rfl, by simp⟩

/-- C4 (amended): when the precision model is available, the document list
non-empty and the batch scoring call raises, `CrossEncoderReranker.rerank`
propagates that exception unchanged (the source wraps the call in no
handler). -/
theorem c4_amended_error_propagates (r : CrossEncoderReranker) (query : String)
    (docs : List Doc) (top_k : ℕ) (e : String)
    (ha : r.available = true) (hd : docs ≠ [])
    (hp : r.predict (pairsOf query docs) = .error e) :
    r.rerank query docs top_k = .error e := by
  rw [CrossEncoderReranker.rerank,
    if_neg (by simp [ha, List.isEmpty_iff, hd]), hp]

/-- C4 (witness): the propagation at a concrete failing scorer. -/
theorem c4_amended_witness :
    failingCross.rerank "q" [⟨"d", []⟩] 2 = .error "boom" :=
  c4_amended_error_propagates failingCross "q" [⟨"d", []⟩] 2 "boom" rfl
    (by simp) rfl

/-- C5 (counterexample): the FlashRank stage's error path returns
`docs[:top_k]`, not the un-truncated input: with 6 documents and the
stage's `top_k = 5`, a raising scoring call yields 5 documents — fewer
than received. -/
theorem c5_counterexample :
    flashrank_rerank (some failingFlash) "q" sixDocs 5 = sixDocs.take 5
  ∧ (flashrank_rerank (some failingFlash) "q" sixDocs 5).length = 5
  ∧ sixDocs.length = 6 :=
  ⟨rfl, rfl, rfl⟩

/-- C5 (amended): when the FlashRank scoring call raises, the stage
catches the error and returns the first `min(top_k, len(docs))` input
documents in their original order (`docs[:top_k]`) — untouched documents,
but truncated to `top_k`. -/
theorem c5_amended_error_truncates (f : FlashRanker) (query : String)
    (docs : List Doc) (top_k : ℕ) (e : String)
    (hc : f.call query (docs.enum.map (fun p => (p.1, p.2.content))) = .error e) :
    flashrank_rerank (some f) query docs top_k = docs.take top_k := by
  simp [flashrank_rerank, hc]

/-- C5 (witness): the truncating error path at a concrete failing ranker. -/
theorem c5_amended_witness :
    flashrank_rerank (some failingFlash) "q" sixDocs 3 = sixDocs.take 3 :=
  c5_amended_error_truncates failingFlash "q" sixDocs 3 "boom" rfl

/-- C6 (counterexample): on the oracle reply `"2a9"` the source
concatenates ALL digits of the first five characters (`29`, relevant),
while the claimed first-run-of-digits policy would read `2`
(not relevant) — the two verdicts differ. -/
theorem c6_counterexample :
    check_relevance (.ok "2a9") = (true, 29)
  ∧ specCheckRelevance (.ok "2a9") = (false, 2)
  ∧ ((true, 29) : Bool × ℚ) ≠ (false, 2) :=
  ⟨by decide, by decide, by decide⟩

/-- C6 (amended): the verdict is computed from the CONCATENATION OF ALL
digit characters within the first 5 characters of the reply; if none are
found there, or the oracle call raises, the verdict is `(true, 70)`; a
parsed score is clamped to at most 100 and `isRelevant` is `score ≥ 25`. -/
theorem c6_amended_all_digits (r e : String) :
    check_relevance (.error e) = (true, 70)
  ∧ (digitChars r = [] → check_relevance (.ok r) = (true, 70))
  ∧ (check_relevance (.ok r)).2 ≤ 100
  ∧ ((check_relevance (.ok r)).1 = true ↔ 25 ≤ (check_relevance (.ok r)).2)
  ∧ (digitChars r ≠ [] →
      (check_relevance (.ok r)).2 =
        ((min (digitsToNat (digitChars r)) 100 : ℕ) : ℚ)) := by
  have hck : digitChars r ≠ [] → check_relevance (.ok r) =
      (decide (25 ≤ min (digitsToNat (digitChars r)) 100),
        ((min (digitsToNat (digitChars r)) 100 : ℕ) : ℚ)) := by
    intro h
    simp [check_relevance, h]
  refine ⟨rfl, ?_, ?_, ?_, ?_⟩
  · intro h
    simp [check_relevance, h]
  · by_cases h : digitChars r = []
    · simp [check_relevance, h]
      norm_num
    · rw [hck h]
      exact_mod_cast Nat.cast_le.mpr (min_le_right _ 100)
  · by_cases h : digitChars r = []
    · simp [check_relevance, h]
      norm_num
    · rw [hck h]
      dsimp only
      rw [decide_eq_true_eq]
      exact_mod_cast Iff.rfl
  · intro h
    exact congrArg Prod.snd (hck h)

/-- C6 (witness): the amended parse at the reply `"2a9"`. -/
theorem c6_amended_witness :
    (check_relevance (.ok "2a9")).2 =
      ((min (digitsToNat (digitChars "2a9")) 100 : ℕ) : ℚ) :=
  (c6_amended_all_digits "2a9" "err").2.2.2.2 (by decide)

/-- C7: when the precision model is unavailable or the document list is
empty, `rerank` returns exactly `documents[:topK]` — the same document
values, so no score annotation is added and no scoring call is consulted
(the result does not depend on `predict`). -/
theorem c7_identity_when_unavailable (r : CrossEncoderReranker)
    (query : String) (docs : List Doc) (top_k : ℕ)
    (h : r.available = false ∨ docs = []) :
    r.rerank query docs top_k = .ok (docs.take top_k) := by
  rw [CrossEncoderReranker.rerank, if_pos]
  rcases h with h | h
  · exact Or.inl h
  · exact Or.inr (by simp [h])

/-- C7 (witness): identity at a concrete unavailable reranker. -/
theorem c7_witness :
    CrossEncoderReranker.rerank ⟨false, fun _ => .error "never"⟩ "q" sixDocs 2 =
      .ok (sixDocs.take 2) :=
  c7_identity_when_unavailable ⟨false, fun _ => .error "never"⟩ "q" sixDocs 2
    (Or.inl rfl)

/-- C8: the sort is stable, so if the model scores every document with the
same constant the output is the input truncated to `topK` in its original
order (each kept document only gaining its score annotation). -/
theorem c8_stable_under_ties (r : CrossEncoderReranker) (query : String)
    (docs : List Doc) (top_k : ℕ) (c : ℚ)
    (ha : r.available = true)
    (hp : r.predict (pairsOf query docs) = .ok (List.replicate docs.length c)) :
    r.rerank query docs top_k =
      .ok ((docs.take top_k).map (fun d => setMeta d "cross_encoder_score" c)) := by
  by_cases hd : docs = []
  · subst hd
    simp [CrossEncoderReranker.rerank]
  · rw [CrossEncoderReranker.rerank,
      if_neg (by simp [ha, List.isEmpty_iff, hd]), hp]
    show Except.ok (((sortDesc (docs.zip (List.replicate docs.length c))).take
        top_k).map (fun p => setMeta p.1 "cross_encoder_score" p.2)) = _
    rw [zip_replicate_self docs c,
      sortDesc_of_const (docs.map (fun a => (a, c))) c
        (by intro p hp'
            rcases List.mem_map.mp hp' with ⟨a, _, rfl⟩
            rfl),
      ← List.map_take, List.map_map]
    rfl

/-- C8 (witness): stability at two distinct documents all scored 7. -/
theorem c8_witness :
    constCross.rerank "q" [⟨"a", []⟩, ⟨"b", []⟩] 2 =
      .ok ((([⟨"a", []⟩, ⟨"b", []⟩] : List Doc).take 2).map
        (fun d => setMeta d "cross_encoder_score" 7)) :=
  c8_stable_under_ties constCross "q" [⟨"a", []⟩, ⟨"b", []⟩] 2 7 rfl rfl

/-- C9: the orchestrator returns empty immediately on an empty candidate
set (no later stage runs — in particular the expansion collaborator is
not consulted), and a single candidate passes through both reranking
stages unchanged whatever the models would do (the `len(documents) > 1`
guards), reaching parent expansion as-is. -/
theorem c9_empty_and_singleton (e : RetrievalEngine) (query : String)
    (d : Doc) (use_rerank use_parent : Bool) :
    e.retrieve query [] use_rerank use_parent = .ok []
  ∧ e.retrieve query [d] use_rerank use_parent =
      .ok (if use_parent then e.expand [d] else [d]) := by
  constructor
  · rfl
  · simp [RetrievalEngine.retrieve]

/-- C10: when at least one document meets the dynamic threshold the result
is the threshold-kept documents, an in-order sublist of the input (no
re-sorting); only when the threshold discards everything does the
fallback return the top 2 of the descending stable sort — which is sorted
by score, descending, with documents of equal score keeping their input
order. -/
theorem c10_order_preservation {α : Type} (minScore : ℚ)
    (scored : List (α × ℚ)) :
    (thresholdKept minScore scored ≠ [] →
        filter_documents minScore scored = thresholdKept minScore scored
      ∧ List.Sublist (filter_documents minScore scored) scored)
  ∧ (scored ≠ [] → thresholdKept minScore scored = [] →
        filter_documents minScore scored = (sortDesc scored).take 2
      ∧ (sortDesc scored).Perm scored
      ∧ List.Sorted (fun a b : α × ℚ => b.2 ≤ a.2) (sortDesc scored)
      ∧ ∀ c : ℚ, (sortDesc scored).filter (fun q => q.2 = c) =
          scored.filter (fun q => q.2 = c)) := by
  constructor
  · intro hk
    have hs : scored ≠ [] := by
      intro h0
      exact hk (by simp [h0, thresholdKept])
    have he : scored.isEmpty = false := by simp [List.isEmpty_iff, hs]
    have hke : (thresholdKept minScore scored).isEmpty = false := by
      simp [List.isEmpty_iff, hk]
    have hres : filter_documents minScore scored = thresholdKept minScore scored := by
      rw [filter_documents, he, hke]
      simp
    exact ⟨hres, hres ▸ List.filter_sublist scored⟩
  · intro hs hk
    have he : scored.isEmpty = false := by simp [List.isEmpty_iff, hs]
    have hke : (thresholdKept minScore scored).isEmpty = true := by
      simp [List.isEmpty_iff, hk]
    refine ⟨by rw [filter_documents, he, hke]; simp, perm_sortDesc scored,
      sorted_sortDesc scored, fun c => filter_snd_sortDesc scored c⟩

/-- C10 (witness): the in-order branch at Scenario Ay's scores and the
fallback branch at scores `[20, 0]`. -/
theorem c10_witness :
    filter_documents 25 scenarioA = thresholdKept 25 scenarioA
  ∧ filter_documents 25 twoWeak = (sortDesc twoWeak).take 2 := by
  have hA : thresholdKept 25 scenarioA = [(0, 90), (1, 85), (4, 50)] := by
    norm_num [thresholdKept, dynamicThreshold, avgScore, scenarioA,
      List.filter_cons]
  have hW : thresholdKept 25 twoWeak = [] := by
    norm_num [thresholdKept, dynamicThreshold, avgScore, twoWeak,
      List.filter_cons]
  constructor
  · exact ((c10_order_preservation 25 scenarioA).1 (by simp [hA])).1
  · exact ((c10_order_preservation 25 twoWeak).2 (by simp [twoWeak]) hW).1

end GreenValue
